import Mathlib

/-!
Shallow embedding of the electrostatics-playground sketch (`src/sketch.js`).

JavaScript numbers are modelled as real numbers; p5.js vectors as pairs of
reals.  Every definition below mirrors one function of the sketch, with the
source line numbers noted in its doc comment.
-/

namespace Sketch

noncomputable section

/-- A 2D vector, modelling a `p5.Vector` restricted to the plane. -/
structure Vec where
  x : ℝ
  y : ℝ

/-- Componentwise addition, modelling `p5.Vector.add`. -/
def vadd (a b : Vec) : Vec := ⟨a.x + b.x, a.y + b.y⟩

/-- Componentwise subtraction, modelling `p5.Vector.sub`. -/
def vsub (a b : Vec) : Vec := ⟨a.x - b.x, a.y - b.y⟩

/-- Scalar multiplication, modelling `p5.Vector.mult`. -/
def vmult (a : Vec) (s : ℝ) : Vec := ⟨a.x * s, a.y * s⟩

/-- Scalar division, modelling `p5.Vector.div`. -/
def vdiv (a : Vec) (s : ℝ) : Vec := ⟨a.x / s, a.y / s⟩

/-- Vector negation (`mult(-1)` in the sketch). -/
def vneg (a : Vec) : Vec := ⟨-a.x, -a.y⟩

/-- Euclidean magnitude, modelling `p5.Vector.mag` in the plane. -/
def mag (a : Vec) : ℝ := Real.sqrt (a.x * a.x + a.y * a.y)

/-- Normalisation, modelling `p5.Vector.normalize`: divide by the magnitude
unless it is zero, in which case the vector is returned unchanged. -/
def normalize (a : Vec) : Vec := if mag a = 0 then a else vdiv a (mag a)

/-- Sum of a list of vectors (used to state superposition of field
contributions). -/
def vsum : List Vec → Vec
  | [] => ⟨0, 0⟩
  | v :: rest => vadd v (vsum rest)

/-- Euclidean distance between two points, modelling p5's `dist(x1,y1,x2,y2)`. -/
def dist (x1 y1 x2 y2 : ℝ) : ℝ :=
  Real.sqrt ((x2 - x1) * (x2 - x1) + (y2 - y1) * (y2 - y1))

/-- The sketch's global tunables and canvas geometry
(`sketch.js` lines 10-28). -/
structure Config where
  canvasWidth : ℝ
  canvasHeight : ℝ
  globalFriction : ℝ
  kCoulomb : ℝ
  minDistance : ℝ
  streamlineStep : ℝ
  maxStreamlineLen : Nat

/-- The default values of the globals (`sketch.js` lines 10-28). -/
def defaultConfig : Config :=
  { canvasWidth := 1000
    canvasHeight := 600
    globalFriction := 0.02
    kCoulomb := 800
    minDistance := 8
    streamlineStep := 2.2
    maxStreamlineLen := 600 }

/-- The `Particle` class state (`sketch.js` lines 35-48); the colour field is
rendering-only and omitted. -/
structure Particle where
  pos : Vec
  vel : Vec
  acc : Vec
  charge : ℝ
  mass : ℝ
  radius : ℝ

/-- The `Particle` constructor (`sketch.js` lines 36-48): zero velocity and
acceleration, unit mass, radius 5. -/
def mkParticle (x y charge : ℝ) : Particle :=
  { pos := ⟨x, y⟩
    vel := ⟨0, 0⟩
    acc := ⟨0, 0⟩
    charge := charge
    mass := 1
    radius := 5 }

/-- `Particle.applyForce` (`sketch.js` lines 50-53): `acc += force / mass`. -/
def Particle.applyForce (p : Particle) (force : Vec) : Particle :=
  { p with acc := vadd p.acc (vdiv force p.mass) }

/-- The x-axis branch of `Particle.handleEdges` (`sketch.js` lines 65-66):
clamp `pos.x` to `[0, canvasWidth]` and reflect `vel.x` (`vel.x *= -1`) on an
excursion. -/
def Particle.handleEdgeX (cfg : Config) (p : Particle) : Particle :=
  if p.pos.x < 0 then
    { p with pos := ⟨0, p.pos.y⟩, vel := ⟨p.vel.x * (-1), p.vel.y⟩ }
  else if p.pos.x > cfg.canvasWidth then
    { p with pos := ⟨cfg.canvasWidth, p.pos.y⟩, vel := ⟨p.vel.x * (-1), p.vel.y⟩ }
  else p

/-- The y-axis branch of `Particle.handleEdges` (`sketch.js` lines 68-69). -/
def Particle.handleEdgeY (cfg : Config) (p : Particle) : Particle :=
  if p.pos.y < 0 then
    { p with pos := ⟨p.pos.x, 0⟩, vel := ⟨p.vel.x, p.vel.y * (-1)⟩ }
  else if p.pos.y > cfg.canvasHeight then
    { p with pos := ⟨p.pos.x, cfg.canvasHeight⟩, vel := ⟨p.vel.x, p.vel.y * (-1)⟩ }
  else p

/-- `Particle.handleEdges` (`sketch.js` lines 64-70): the x-axis branch, then
the y-axis branch on the result. -/
def Particle.handleEdges (cfg : Config) (p : Particle) : Particle :=
  Particle.handleEdgeY cfg (Particle.handleEdgeX cfg p)

/-- The integration part of `Particle.update` (`sketch.js` lines 56-60):
`vel *= (1 - globalFriction)`, `vel += acc`, `pos += vel`, `acc = (0,0)` —
everything `update` does before calling `handleEdges`. -/
def Particle.integrate (cfg : Config) (p : Particle) : Particle :=
  let vel1 := vmult p.vel (1 - cfg.globalFriction)
  let vel2 := vadd vel1 p.acc
  let pos2 := vadd p.pos vel2
  { p with vel := vel2, pos := pos2, acc := ⟨0, 0⟩ }

/-- `Particle.update` (`sketch.js` lines 55-62): integrate, then handle the
canvas edges. -/
def Particle.update (cfg : Config) (p : Particle) : Particle :=
  Particle.handleEdges cfg (Particle.integrate cfg p)

/-- The clamped separation of `applyCoulombForces` (`sketch.js` lines 91-93):
`r = |pos1 - pos2|`, raised to `minDistance` when smaller. -/
def coulombR (cfg : Config) (p1 p2 : Particle) : ℝ :=
  let r := mag (vsub p1.pos p2.pos)
  if r < cfg.minDistance then cfg.minDistance else r

/-- The scalar force magnitude of `applyCoulombForces` (`sketch.js` line 96):
`kCoulomb * charge1 * charge2 / r²` with the clamped `r`. -/
def coulombForceMag (cfg : Config) (p1 p2 : Particle) : ℝ :=
  cfg.kCoulomb * p1.charge * p2.charge / (coulombR cfg p1 p2 * coulombR cfg p1 p2)

/-- The pair force of `applyCoulombForces` (`sketch.js` lines 95-97): the
clamped unit direction `rVec / r` scaled by the force magnitude.  This is the
force applied to the first particle of the pair. -/
def coulombForce (cfg : Config) (p1 p2 : Particle) : Vec :=
  vmult (vdiv (vsub p1.pos p2.pos) (coulombR cfg p1 p2)) (coulombForceMag cfg p1 p2)

/-- The body of the inner loop of `applyCoulombForces` (`sketch.js`
lines 88-100): apply the pair force to the first particle and its negation
(`mult(-1)`) to the second. -/
def interactPair (cfg : Config) (p1 p2 : Particle) : Particle × Particle :=
  (Particle.applyForce p1 (coulombForce cfg p1 p2),
   Particle.applyForce p2 (vmult (coulombForce cfg p1 p2) (-1)))

/-- The inner loop of `applyCoulombForces` (`sketch.js` lines 86-101): the
current particle `p1` interacts with every later particle in order, threading
the accumulated state of `p1` through and returning it together with the
updated tail. -/
def innerLoop (cfg : Config) (p1 : Particle) : List Particle → Particle × List Particle
  | [] => (p1, [])
  | p2 :: tl =>
    let pr := interactPair cfg p1 p2
    let res := innerLoop cfg pr.1 tl
    (res.1, pr.2 :: res.2)

/-- The outer loop of `applyCoulombForces` (`sketch.js` lines 85-102), with
the outer index counted by fuel (one unit per outer iteration,
`particles.length` in total): particle `i` interacts with every particle
`j > i`, then the loop moves to `i + 1` over the updated tail. -/
def applyCoulombAux (cfg : Config) : Nat → List Particle → List Particle
  | _, [] => []
  | 0, ps => ps
  | fuel + 1, p :: tl =>
    let res := innerLoop cfg p tl
    res.1 :: applyCoulombAux cfg fuel res.2

/-- `applyCoulombForces` (`sketch.js` lines 84-103) over the particle list. -/
def applyCoulombForces (cfg : Config) (ps : List Particle) : List Particle :=
  applyCoulombAux cfg ps.length ps

/-- One frame of the physics pass of `draw` (`sketch.js` lines 245-250):
`applyCoulombForces()` then `p.update()` for every particle. -/
def tick (cfg : Config) (ps : List Particle) : List Particle :=
  (applyCoulombForces cfg ps).map (Particle.update cfg)

/-- The per-particle accumulation step of `computeElectricFieldAtPoint`
(`sketch.js` lines 113-125): skip the particle when `r² < minDistance²`,
otherwise add `E * (r_vec / r)` componentwise with `E = kCoulomb * charge / r²`. -/
def fieldStep (cfg : Config) (x y : ℝ) (acc : Vec) (p : Particle) : Vec :=
  let rx := x - p.pos.x
  let ry := y - p.pos.y
  let r2 := rx * rx + ry * ry
  if r2 < cfg.minDistance * cfg.minDistance then acc
  else
    let r := Real.sqrt r2
    let E := cfg.kCoulomb * p.charge / r2
    ⟨acc.x + E * (rx / r), acc.y + E * (ry / r)⟩

/-- `computeElectricFieldAtPoint` (`sketch.js` lines 110-128): fold the
per-particle step over the particle list starting from the zero vector. -/
def computeElectricFieldAtPoint (cfg : Config) (ps : List Particle) (x y : ℝ) : Vec :=
  ps.foldl (fieldStep cfg x y) ⟨0, 0⟩

/-- A single particle's field contribution `(kCoulomb * charge / r²) * (r_vec / r)`
at a query point (the `else` branch of `computeElectricFieldAtPoint`,
`sketch.js` lines 120-124). -/
def fieldContribution (cfg : Config) (x y : ℝ) (p : Particle) : Vec :=
  let rx := x - p.pos.x
  let ry := y - p.pos.y
  let r2 := rx * rx + ry * ry
  let r := Real.sqrt r2
  let E := cfg.kCoulomb * p.charge / r2
  ⟨E * (rx / r), E * (ry / r)⟩

/-- The skip test of `computeElectricFieldAtPoint` (`sketch.js` line 118),
phrased positively: the particle contributes iff `minDistance² ≤ r²`. -/
def farEnough (cfg : Config) (x y : ℝ) (p : Particle) : Bool :=
  decide (cfg.minDistance * cfg.minDistance ≤
    (x - p.pos.x) * (x - p.pos.x) + (y - p.pos.y) * (y - p.pos.y))

/-- The sink scan of `traceStreamline` (`sketch.js` lines 154-160): does the
point lie within `radius + 4` of some negative charge? -/
def hitsSink (x y : ℝ) : List Particle → Bool
  | [] => false
  | p :: rest =>
    if p.charge < 0 ∧ dist x y p.pos.x p.pos.y < p.radius + 4 then true
    else hitsSink x y rest

/-- The loop of `traceStreamline` (`sketch.js` lines 139-161), with the loop
counter as fuel: sample the field, stop on magnitude below `0.01`, advance by
`streamlineStep` along the normalised direction, push the new point, stop when
it leaves the canvas or reaches a negative-charge sink. -/
def traceAux (cfg : Config) (ps : List Particle) : Nat → ℝ → ℝ → List (ℝ × ℝ)
  | 0, _, _ => []
  | fuel + 1, x, y =>
    let E := computeElectricFieldAtPoint cfg ps x y
    if mag E < 0.01 then []
    else
      let dir := normalize E
      let x2 := x + dir.x * cfg.streamlineStep
      let y2 := y + dir.y * cfg.streamlineStep
      if x2 < 0 ∨ x2 > cfg.canvasWidth ∨ y2 < 0 ∨ y2 > cfg.canvasHeight then [(x2, y2)]
      else if hitsSink x2 y2 ps then [(x2, y2)]
      else (x2, y2) :: traceAux cfg ps fuel x2 y2

/-- `traceStreamline` (`sketch.js` lines 135-164): run the traced loop for at
most `maxStreamlineLen` iterations from the seed. -/
def traceStreamline (cfg : Config) (ps : List Particle) (startX startY : ℝ) :
    List (ℝ × ℝ) :=
  traceAux cfg ps cfg.maxStreamlineLen startX startY

/-- The hit test shared by `getParticleAt` and `deleteParticleAt`
(`sketch.js` lines 398 and 406): centre within `radius + 2` of the point. -/
def hitTest (x y : ℝ) (p : Particle) : Bool :=
  decide (dist x y p.pos.x p.pos.y < p.radius + 2)

/-- `getParticleAt` (`sketch.js` lines 396-401): scan the particle list in
insertion order and return the first particle whose centre lies within
`radius + 2` of the point, or `none`. -/
def getParticleAt (x y : ℝ) : List Particle → Option Particle
  | [] => none
  | p :: rest => if hitTest x y p then some p else getParticleAt x y rest

/-- The scan of `deleteParticleAt` (`sketch.js` lines 404-410): walk the list
from the highest index down (here: recurse into the tail, which holds the
later-added particles, before testing the head) and return the list with the
first hit removed, or `none` when nothing matches. -/
def deleteScan (x y : ℝ) : List Particle → Option (List Particle)
  | [] => none
  | p :: rest =>
    match deleteScan x y rest with
    | some rest2 => some (p :: rest2)
    | none => if hitTest x y p then some rest else none

/-- `deleteParticleAt` (`sketch.js` lines 403-411): remove the newest particle
within `radius + 2` of the point; leave the list unchanged when none matches. -/
def deleteParticleAt (x y : ℝ) (ps : List Particle) : List Particle :=
  (deleteScan x y ps).getD ps

/-! ### Helper lemmas -/

/-- Evaluating a square root from a square. -/
theorem sqrt_eq_of_sq (a b : ℝ) (hb : 0 ≤ b) (h : a = b * b) : Real.sqrt a = b := by
  rw [h, Real.sqrt_mul_self hb]

/-- The zero vector has magnitude zero. -/
theorem mag_zero : mag ⟨0, 0⟩ = 0 := by
  simp [mag]

/-- Adding the zero vector on the left is the identity. -/
theorem vadd_zeroL (v : Vec) : vadd ⟨0, 0⟩ v = v := by
  simp [vadd]

/-- Vector addition is associative. -/
theorem vadd_assocL (a b c : Vec) : vadd (vadd a b) c = vadd a (vadd b c) := by
  simp [vadd, add_assoc]

/-! ### Claims -/

/-- C1: for every pair of particles and every combination of charge signs and
parameters, the force the Force Engine accumulates into the second particle of
a pair (recovered from its acceleration delta times its mass) is exactly the
vector negation of the force accumulated into the first particle. -/
theorem newton_third_law (cfg : Config) (p1 p2 : Particle)
    (h1 : p1.mass ≠ 0) (h2 : p2.mass ≠ 0) :
    vmult (vsub ((interactPair cfg p1 p2).2.acc) p2.acc) p2.mass
      = vneg (vmult (vsub ((interactPair cfg p1 p2).1.acc) p1.acc) p1.mass) := by
  simp only [interactPair, Particle.applyForce, vmult, vsub, vadd, vdiv, vneg, Vec.mk.injEq]
  constructor <;> field_simp <;> ring

/-- Witness for C1 at two concrete particles of opposite charge. -/
theorem newton_third_law_witness :
    (mkParticle 0 0 1).mass ≠ 0 ∧ (mkParticle 3 4 (-1)).mass ≠ 0
    ∧ vmult (vsub ((interactPair defaultConfig (mkParticle 0 0 1) (mkParticle 3 4 (-1))).2.acc)
          (mkParticle 3 4 (-1)).acc) (mkParticle 3 4 (-1)).mass
      = vneg (vmult (vsub ((interactPair defaultConfig (mkParticle 0 0 1) (mkParticle 3 4 (-1))).1.acc)
          (mkParticle 0 0 1).acc) (mkParticle 0 0 1).mass) :=
  ⟨by norm_num [mkParticle], by norm_num [mkParticle],
   newton_third_law defaultConfig (mkParticle 0 0 1) (mkParticle 3 4 (-1))
     (by norm_num [mkParticle]) (by norm_num [mkParticle])⟩

/-- C2, counterexample: two particles at identical coordinates, default
parameters.  The Force Engine applies a force of magnitude 0 to each particle
(the clamped unit direction is the zero vector), not
`|kCoulomb * q1 * q2| / minDistance² = 12.5` as the claim states. -/
theorem coincident_magnitude_counterexample :
    ((applyCoulombForces defaultConfig
        [mkParticle 100 100 1, mkParticle 100 100 1]).map fun p => mag p.acc)
      = [0, 0]
    ∧ |defaultConfig.kCoulomb * (mkParticle 100 100 1).charge * (mkParticle 100 100 1).charge|
        / (defaultConfig.minDistance * defaultConfig.minDistance) = 25 / 2
    ∧ (0 : ℝ) ≠ 25 / 2 := by
  refine ⟨?_, by norm_num [defaultConfig, mkParticle], by norm_num⟩
  norm_num [applyCoulombForces, applyCoulombAux, innerLoop, interactPair, coulombForce,
    coulombForceMag, coulombR, Particle.applyForce, mkParticle, vsub, vadd, vdiv, vmult,
    mag, defaultConfig]

/-- C2, amended: for two particles at identical coordinates (with a positive
`minDistance`) the Force Engine produces a well-defined finite force: the
scalar force magnitude is the Coulomb value computed with `r = minDistance`,
but the displacement is the zero vector, so the clamped unit direction — and
with it the applied force vector — is zero, with magnitude 0. -/
theorem coincident_force_clamped (cfg : Config) (p1 p2 : Particle)
    (hpos : p1.pos = p2.pos) (hmin : 0 < cfg.minDistance) :
    coulombForceMag cfg p1 p2
      = cfg.kCoulomb * p1.charge * p2.charge / (cfg.minDistance * cfg.minDistance)
    ∧ coulombForce cfg p1 p2 = ⟨0, 0⟩
    ∧ mag (coulombForce cfg p1 p2) = 0 := by
  have hsub : vsub p1.pos p2.pos = ⟨0, 0⟩ := by simp [vsub, hpos]
  have hr : coulombR cfg p1 p2 = cfg.minDistance := by
    simp [coulombR, hsub, mag, hmin]
  have hforce : coulombForce cfg p1 p2 = ⟨0, 0⟩ := by
    simp [coulombForce, hsub, hr, vdiv, vmult]
  exact ⟨by simp [coulombForceMag, hr], hforce, by rw [hforce]; exact mag_zero⟩

/-- Witness for C2's amended theorem at two concrete coincident particles. -/
theorem coincident_force_clamped_witness :
    (mkParticle 100 100 1).pos = (mkParticle 100 100 (-1)).pos
    ∧ 0 < defaultConfig.minDistance
    ∧ (coulombForceMag defaultConfig (mkParticle 100 100 1) (mkParticle 100 100 (-1))
        = defaultConfig.kCoulomb * (mkParticle 100 100 1).charge
            * (mkParticle 100 100 (-1)).charge
          / (defaultConfig.minDistance * defaultConfig.minDistance)
      ∧ coulombForce defaultConfig (mkParticle 100 100 1) (mkParticle 100 100 (-1)) = ⟨0, 0⟩
      ∧ mag (coulombForce defaultConfig (mkParticle 100 100 1) (mkParticle 100 100 (-1))) = 0) :=
  ⟨rfl, by norm_num [defaultConfig],
   coincident_force_clamped defaultConfig (mkParticle 100 100 1) (mkParticle 100 100 (-1))
     rfl (by norm_num [defaultConfig])⟩

/-- C6: the Motion Integrator performs its steps in exactly the source order:
damp the velocity by `(1 - friction)`, add the accumulated acceleration, add
the velocity to the position, reset the acceleration, then reflect at the
boundary; in particular the damping acts on the old velocity only, never on
the freshly added acceleration (last conjunct: a concrete state where the
two orders differ). -/
theorem integrator_step_order (cfg : Config) (p : Particle) :
    Particle.update cfg p = Particle.handleEdges cfg (Particle.integrate cfg p)
    ∧ (Particle.integrate cfg p).vel = vadd (vmult p.vel (1 - cfg.globalFriction)) p.acc
    ∧ (Particle.integrate cfg p).pos
        = vadd p.pos (vadd (vmult p.vel (1 - cfg.globalFriction)) p.acc)
    ∧ (Particle.integrate cfg p).acc = ⟨0, 0⟩
    ∧ (Particle.integrate { defaultConfig with globalFriction := 1 / 2 }
         ⟨⟨0, 0⟩, ⟨2, 0⟩, ⟨2, 0⟩, 1, 1, 5⟩).vel.x
        ≠ (1 - (1 / 2 : ℝ)) * (2 + 2) := by
  refine ⟨rfl, rfl, rfl, rfl, ?_⟩
  norm_num [Particle.integrate, vadd, vmult]

/-- C3: the Field Sampler returns the vector sum of the contributions
`(kCoulomb * charge / r²) * (r_vec / r)` over exactly those particles whose
squared distance from the query point is at least `minDistance²`; closer
particles contribute nothing at all. -/
theorem field_sampler_superposition (cfg : Config) (ps : List Particle) (x y : ℝ) :
    computeElectricFieldAtPoint cfg ps x y
      = vsum ((ps.filter (farEnough cfg x y)).map (fieldContribution cfg x y)) := by
  have key : ∀ (l : List Particle) (acc : Vec),
      l.foldl (fieldStep cfg x y) acc
        = vadd acc (vsum ((l.filter (farEnough cfg x y)).map (fieldContribution cfg x y))) := by
    intro l
    induction l with
    | nil => intro acc; simp [vsum, vadd]
    | cons p tl ih =>
      intro acc
      by_cases h : (x - p.pos.x) * (x - p.pos.x) + (y - p.pos.y) * (y - p.pos.y)
          < cfg.minDistance * cfg.minDistance
      · have hfar : farEnough cfg x y p = false := by
          simp [farEnough, not_le.mpr h]
        have hstep : fieldStep cfg x y acc p = acc := by
          simp only [fieldStep]
          rw [if_pos h]
        simp only [List.foldl_cons, List.filter_cons, hfar, hstep, ih, Bool.false_eq_true,
          if_false]
      · have hfar : farEnough cfg x y p = true := by
          simp [farEnough, not_lt.mp h]
        have hstep : fieldStep cfg x y acc p = vadd acc (fieldContribution cfg x y p) := by
          simp only [fieldStep, fieldContribution]
          rw [if_neg h]
          simp [vadd]
        simp only [List.foldl_cons, List.filter_cons, hfar, if_true, List.map_cons, hstep, ih,
          vsum, vadd_assocL]
  rw [computeElectricFieldAtPoint, key, vadd_zeroL]

/-- The x-axis edge branch does not touch the y components. -/
theorem handleEdgeX_keeps_y (cfg : Config) (q : Particle) :
    (Particle.handleEdgeX cfg q).pos.y = q.pos.y
    ∧ (Particle.handleEdgeX cfg q).vel.y = q.vel.y := by
  unfold Particle.handleEdgeX
  split_ifs <;> exact ⟨rfl, rfl⟩

/-- The y-axis edge branch does not touch the x components. -/
theorem handleEdgeY_keeps_x (cfg : Config) (q : Particle) :
    (Particle.handleEdgeY cfg q).pos.x = q.pos.x
    ∧ (Particle.handleEdgeY cfg q).vel.x = q.vel.x := by
  unfold Particle.handleEdgeY
  split_ifs <;> exact ⟨rfl, rfl⟩

/-- After the x-axis edge branch the x coordinate lies in `[0, canvasWidth]`. -/
theorem handleEdgeX_mem (cfg : Config) (q : Particle) (hw : 0 ≤ cfg.canvasWidth) :
    0 ≤ (Particle.handleEdgeX cfg q).pos.x
    ∧ (Particle.handleEdgeX cfg q).pos.x ≤ cfg.canvasWidth := by
  unfold Particle.handleEdgeX
  split_ifs with h1 h2
  · exact ⟨le_refl 0, hw⟩
  · exact ⟨hw, le_refl _⟩
  · exact ⟨not_lt.mp h1, not_lt.mp h2⟩

/-- After the y-axis edge branch the y coordinate lies in `[0, canvasHeight]`. -/
theorem handleEdgeY_mem (cfg : Config) (q : Particle) (hh : 0 ≤ cfg.canvasHeight) :
    0 ≤ (Particle.handleEdgeY cfg q).pos.y
    ∧ (Particle.handleEdgeY cfg q).pos.y ≤ cfg.canvasHeight := by
  unfold Particle.handleEdgeY
  split_ifs with h1 h2
  · exact ⟨le_refl 0, hh⟩
  · exact ⟨hh, le_refl _⟩
  · exact ⟨not_lt.mp h1, not_lt.mp h2⟩

/-- Below-zero x excursion: clamp to 0 and negate `vel.x`. -/
theorem handleEdgeX_low (cfg : Config) (q : Particle) (h : q.pos.x < 0) :
    (Particle.handleEdgeX cfg q).pos.x = 0
    ∧ (Particle.handleEdgeX cfg q).vel.x = -q.vel.x := by
  unfold Particle.handleEdgeX
  rw [if_pos h]
  exact ⟨rfl, by ring⟩

/-- Above-width x excursion: clamp to the width and negate `vel.x`. -/
theorem handleEdgeX_high (cfg : Config) (q : Particle) (h0 : ¬ q.pos.x < 0)
    (h : q.pos.x > cfg.canvasWidth) :
    (Particle.handleEdgeX cfg q).pos.x = cfg.canvasWidth
    ∧ (Particle.handleEdgeX cfg q).vel.x = -q.vel.x := by
  unfold Particle.handleEdgeX
  rw [if_neg h0, if_pos h]
  exact ⟨rfl, by ring⟩

/-- Below-zero y excursion: clamp to 0 and negate `vel.y`. -/
theorem handleEdgeY_low (cfg : Config) (q : Particle) (h : q.pos.y < 0) :
    (Particle.handleEdgeY cfg q).pos.y = 0
    ∧ (Particle.handleEdgeY cfg q).vel.y = -q.vel.y := by
  unfold Particle.handleEdgeY
  rw [if_pos h]
  exact ⟨rfl, by ring⟩

/-- Above-height y excursion: clamp to the height and negate `vel.y`. -/
theorem handleEdgeY_high (cfg : Config) (q : Particle) (h0 : ¬ q.pos.y < 0)
    (h : q.pos.y > cfg.canvasHeight) :
    (Particle.handleEdgeY cfg q).pos.y = cfg.canvasHeight
    ∧ (Particle.handleEdgeY cfg q).vel.y = -q.vel.y := by
  unfold Particle.handleEdgeY
  rw [if_neg h0, if_pos h]
  exact ⟨rfl, by ring⟩

/-- C5: after every integration step the position lies in the closed rectangle
`[0, canvasWidth] × [0, canvasHeight]`; per axis independently, a coordinate
that would fall below 0 is clamped to 0 with that axis's velocity negated, and
one that would exceed the extent is clamped to the extent with that axis's
velocity negated (the axis clauses can fire together in one tick). -/
theorem boundary_reflection (cfg : Config) (p : Particle)
    (hw : 0 ≤ cfg.canvasWidth) (hh : 0 ≤ cfg.canvasHeight) :
    (0 ≤ (Particle.update cfg p).pos.x
      ∧ (Particle.update cfg p).pos.x ≤ cfg.canvasWidth
      ∧ 0 ≤ (Particle.update cfg p).pos.y
      ∧ (Particle.update cfg p).pos.y ≤ cfg.canvasHeight)
    ∧ ((Particle.integrate cfg p).pos.x < 0 →
        (Particle.update cfg p).pos.x = 0
        ∧ (Particle.update cfg p).vel.x = -(Particle.integrate cfg p).vel.x)
    ∧ (¬ (Particle.integrate cfg p).pos.x < 0 →
        (Particle.integrate cfg p).pos.x > cfg.canvasWidth →
        (Particle.update cfg p).pos.x = cfg.canvasWidth
        ∧ (Particle.update cfg p).vel.x = -(Particle.integrate cfg p).vel.x)
    ∧ ((Particle.integrate cfg p).pos.y < 0 →
        (Particle.update cfg p).pos.y = 0
        ∧ (Particle.update cfg p).vel.y = -(Particle.integrate cfg p).vel.y)
    ∧ (¬ (Particle.integrate cfg p).pos.y < 0 →
        (Particle.integrate cfg p).pos.y > cfg.canvasHeight →
        (Particle.update cfg p).pos.y = cfg.canvasHeight
        ∧ (Particle.update cfg p).vel.y = -(Particle.integrate cfg p).vel.y) := by
  have hupd : Particle.update cfg p
      = Particle.handleEdgeY cfg (Particle.handleEdgeX cfg (Particle.integrate cfg p)) := rfl
  set m := Particle.integrate cfg p with hm
  set q := Particle.handleEdgeX cfg m with hq
  refine ⟨⟨?_, ?_, ?_, ?_⟩, ?_, ?_, ?_, ?_⟩
  · rw [hupd, (handleEdgeY_keeps_x cfg q).1]
    exact (handleEdgeX_mem cfg m hw).1
  · rw [hupd, (handleEdgeY_keeps_x cfg q).1]
    exact (handleEdgeX_mem cfg m hw).2
  · rw [hupd]
    exact (handleEdgeY_mem cfg q hh).1
  · rw [hupd]
    exact (handleEdgeY_mem cfg q hh).2
  · intro h
    constructor
    · rw [hupd, (handleEdgeY_keeps_x cfg q).1]
      exact (handleEdgeX_low cfg m h).1
    · rw [hupd, (handleEdgeY_keeps_x cfg q).2]
      exact (handleEdgeX_low cfg m h).2
  · intro h0 h
    constructor
    · rw [hupd, (handleEdgeY_keeps_x cfg q).1]
      exact (handleEdgeX_high cfg m h0 h).1
    · rw [hupd, (handleEdgeY_keeps_x cfg q).2]
      exact (handleEdgeX_high cfg m h0 h).2
  · intro h
    have hy : q.pos.y < 0 := by rw [hq, (handleEdgeX_keeps_y cfg m).1]; exact h
    constructor
    · rw [hupd]
      exact (handleEdgeY_low cfg q hy).1
    · rw [hupd, (handleEdgeY_low cfg q hy).2, hq, (handleEdgeX_keeps_y cfg m).2]
  · intro h0 h
    have hy0 : ¬ q.pos.y < 0 := by rw [hq, (handleEdgeX_keeps_y cfg m).1]; exact h0
    have hy : q.pos.y > cfg.canvasHeight := by
      rw [hq, (handleEdgeX_keeps_y cfg m).1]; exact h
    constructor
    · rw [hupd]
      exact (handleEdgeY_high cfg q hy0 hy).1
    · rw [hupd, (handleEdgeY_high cfg q hy0 hy).2, hq, (handleEdgeX_keeps_y cfg m).2]

/-- Witness for C5 with the default canvas and a particle heading past the
right edge. -/
theorem boundary_reflection_witness :
    0 ≤ defaultConfig.canvasWidth ∧ 0 ≤ defaultConfig.canvasHeight
    ∧ (0 ≤ (Particle.update defaultConfig ⟨⟨999, 300⟩, ⟨5, 0⟩, ⟨0, 0⟩, 1, 1, 5⟩).pos.x
        ∧ (Particle.update defaultConfig ⟨⟨999, 300⟩, ⟨5, 0⟩, ⟨0, 0⟩, 1, 1, 5⟩).pos.x
            ≤ defaultConfig.canvasWidth
        ∧ 0 ≤ (Particle.update defaultConfig ⟨⟨999, 300⟩, ⟨5, 0⟩, ⟨0, 0⟩, 1, 1, 5⟩).pos.y
        ∧ (Particle.update defaultConfig ⟨⟨999, 300⟩, ⟨5, 0⟩, ⟨0, 0⟩, 1, 1, 5⟩).pos.y
            ≤ defaultConfig.canvasHeight) :=
  ⟨by norm_num [defaultConfig], by norm_num [defaultConfig],
   ((boundary_reflection defaultConfig ⟨⟨999, 300⟩, ⟨5, 0⟩, ⟨0, 0⟩, 1, 1, 5⟩
      (by norm_num [defaultConfig]) (by norm_num [defaultConfig])).1)⟩

/-- The streamline loop produces at most one point per unit of fuel. -/
theorem traceAux_length_le (cfg : Config) (ps : List Particle) :
    ∀ (fuel : Nat) (x y : ℝ), (traceAux cfg ps fuel x y).length ≤ fuel := by
  intro fuel
  induction fuel with
  | zero => intro x y; simp [traceAux]
  | succ n ih =>
    intro x y
    simp only [traceAux]
    split
    · simp
    · split
      · simp
      · split
        · simp
        · simp only [List.length_cons]
          exact Nat.succ_le_succ (ih _ _)

/-- C4: the Streamline Tracer always terminates with a finite sequence of at
most `maxStreamlineLen` points. -/
theorem streamline_length_bound (cfg : Config) (ps : List Particle) (sx sy : ℝ) :
    (traceStreamline cfg ps sx sy).length ≤ cfg.maxStreamlineLen :=
  traceAux_length_le cfg ps cfg.maxStreamlineLen sx sy

/-- C7: with a single negative charge and no positive charges, tracing a field
line from a seed within the sampler's skip radius (`minDistance`) of that
charge returns the empty sequence: the lone contribution is skipped, the field
is zero, and the weak-field condition fires on the first iteration. -/
theorem lone_negative_seed_empty (cfg : Config) (c : Particle) (sx sy : ℝ)
    (_hneg : c.charge < 0)
    (hnear : (sx - c.pos.x) * (sx - c.pos.x) + (sy - c.pos.y) * (sy - c.pos.y)
        < cfg.minDistance * cfg.minDistance) :
    traceStreamline cfg [c] sx sy = [] := by
  have hfield : computeElectricFieldAtPoint cfg [c] sx sy = ⟨0, 0⟩ := by
    simp only [computeElectricFieldAtPoint, List.foldl_cons, List.foldl_nil, fieldStep]
    rw [if_pos hnear]
  have hmag : mag (⟨0, 0⟩ : Vec) < 0.01 := by
    rw [mag_zero]; norm_num
  rw [traceStreamline]
  cases cfg.maxStreamlineLen with
  | zero => rfl
  | succ n => simp only [traceAux, hfield, if_pos hmag]

/-- Witness for C7: a negative unit charge at `(100,100)` and a seed at
`(102,100)`, two units away — inside the default `minDistance` of 8. -/
theorem lone_negative_seed_empty_witness :
    (mkParticle 100 100 (-1)).charge < 0
    ∧ (102 - (mkParticle 100 100 (-1)).pos.x) * (102 - (mkParticle 100 100 (-1)).pos.x)
        + (100 - (mkParticle 100 100 (-1)).pos.y) * (100 - (mkParticle 100 100 (-1)).pos.y)
        < defaultConfig.minDistance * defaultConfig.minDistance
    ∧ traceStreamline defaultConfig [mkParticle 100 100 (-1)] 102 100 = [] :=
  ⟨by norm_num [mkParticle], by norm_num [mkParticle, defaultConfig],
   lone_negative_seed_empty defaultConfig (mkParticle 100 100 (-1)) 102 100
     (by norm_num [mkParticle]) (by norm_num [mkParticle, defaultConfig])⟩

/-- C8: for one particle at `(100,100)` with charge `+1` and one at `(200,100)`
with charge `-1`, with `kCoulomb = 800`, `minDistance = 8` and zero friction,
one Force Engine pass gives the positive particle the acceleration
`(0.08, 0)` — pointing toward `(200,100)`, magnitude `800/100² = 0.08` — and
after the full tick its velocity is `(0.08, 0)`. -/
theorem two_particle_one_tick :
    ((applyCoulombForces { defaultConfig with globalFriction := 0 }
        [mkParticle 100 100 1, mkParticle 200 100 (-1)]).map Particle.acc
      = [⟨0.08, 0⟩, ⟨-0.08, 0⟩])
    ∧ ((applyCoulombForces { defaultConfig with globalFriction := 0 }
        [mkParticle 100 100 1, mkParticle 200 100 (-1)]).map fun p => mag p.acc)
      = [0.08, 0.08]
    ∧ ((tick { defaultConfig with globalFriction := 0 }
        [mkParticle 100 100 1, mkParticle 200 100 (-1)]).map Particle.vel
      = [⟨0.08, 0⟩, ⟨-0.08, 0⟩]) := by
  have hsub : vsub (mkParticle 100 100 1).pos (mkParticle 200 100 (-1)).pos
      = ⟨-100, 0⟩ := by
    norm_num [mkParticle, vsub]
  have hmagv : mag (⟨-100, 0⟩ : Vec) = 100 := by
    rw [mag]; exact sqrt_eq_of_sq _ 100 (by norm_num) (by norm_num)
  have hr : coulombR { defaultConfig with globalFriction := 0 }
      (mkParticle 100 100 1) (mkParticle 200 100 (-1)) = 100 := by
    rw [coulombR]
    simp only [hsub, hmagv]
    rw [if_neg (by norm_num [defaultConfig])]
  have hfm : coulombForceMag { defaultConfig with globalFriction := 0 }
      (mkParticle 100 100 1) (mkParticle 200 100 (-1)) = -0.08 := by
    rw [coulombForceMag, hr]
    norm_num [mkParticle, defaultConfig]
  have hforce : coulombForce { defaultConfig with globalFriction := 0 }
      (mkParticle 100 100 1) (mkParticle 200 100 (-1)) = ⟨0.08, 0⟩ := by
    rw [coulombForce, hsub, hr, hfm]
    norm_num [vdiv, vmult]
  have happ : applyCoulombForces { defaultConfig with globalFriction := 0 }
      [mkParticle 100 100 1, mkParticle 200 100 (-1)]
      = [Particle.applyForce (mkParticle 100 100 1) ⟨0.08, 0⟩,
         Particle.applyForce (mkParticle 200 100 (-1)) (vmult (⟨0.08, 0⟩ : Vec) (-1))] := by
    simp only [applyCoulombForces, List.length_cons, List.length_nil, applyCoulombAux,
      innerLoop, interactPair, hforce]
  have hacc1 : (Particle.applyForce (mkParticle 100 100 1) ⟨0.08, 0⟩).acc
      = (⟨0.08, 0⟩ : Vec) := by
    norm_num [Particle.applyForce, mkParticle, vadd, vdiv]
  have hacc2 : (Particle.applyForce (mkParticle 200 100 (-1))
      (vmult (⟨0.08, 0⟩ : Vec) (-1))).acc = (⟨-0.08, 0⟩ : Vec) := by
    norm_num [Particle.applyForce, mkParticle, vadd, vdiv, vmult]
  refine ⟨?_, ?_, ?_⟩
  · rw [happ]
    simp only [List.map_cons, List.map_nil, hacc1, hacc2]
  · rw [happ]
    simp only [List.map_cons, List.map_nil, hacc1, hacc2]
    rw [show mag ⟨0.08, 0⟩ = 0.08 from by
          rw [mag]; exact sqrt_eq_of_sq _ 0.08 (by norm_num) (by norm_num),
        show mag ⟨-0.08, 0⟩ = 0.08 from by
          rw [mag]; exact sqrt_eq_of_sq _ 0.08 (by norm_num) (by norm_num)]
  · rw [tick, happ]
    simp only [List.map_cons, List.map_nil]
    norm_num [Particle.update, Particle.integrate, Particle.handleEdges,
      Particle.handleEdgeX, Particle.handleEdgeY, Particle.applyForce,
      mkParticle, vadd, vdiv, vmult, defaultConfig]

/-- `getParticleAt` is the oldest-to-newest first match, i.e. `List.find?`. -/
theorem getParticleAt_eq_find (x y : ℝ) (ps : List Particle) :
    getParticleAt x y ps = ps.find? (hitTest x y) := by
  induction ps with
  | nil => rfl
  | cons p tl ih =>
    by_cases hp : hitTest x y p
    · simp [getParticleAt, hp]
    · simp [getParticleAt, hp, ih]

/-- The newest-first delete scan either finds no hit at all, or returns the
list with the first match of the reversed (newest-first) order removed. -/
theorem deleteScan_spec (x y : ℝ) (ps : List Particle) :
    (deleteScan x y ps = none ∧ ∀ p ∈ ps, ¬ hitTest x y p = true)
    ∨ ((∃ q ∈ ps, hitTest x y q = true)
        ∧ deleteScan x y ps = some ((List.eraseP (hitTest x y) ps.reverse).reverse)) := by
  induction ps with
  | nil => left; exact ⟨rfl, by simp⟩
  | cons p tl ih =>
    rcases ih with ⟨hnone, hall⟩ | ⟨⟨q, hq, hqh⟩, hsome⟩
    · by_cases hp : hitTest x y p = true
      · right
        refine ⟨⟨p, List.mem_cons_self p tl, hp⟩, ?_⟩
        simp only [deleteScan, hnone]
        rw [if_pos hp]
        congr 1
        rw [List.reverse_cons,
          List.eraseP_append_right _ (fun b hb => hall b (by simpa using hb)),
          List.eraseP_cons_of_pos hp]
        simp
      · left
        refine ⟨?_, ?_⟩
        · simp only [deleteScan, hnone]
          rw [if_neg hp]
        · intro r hr
          rcases List.mem_cons.mp hr with rfl | hr2
          · exact hp
          · exact hall r hr2
    · right
      refine ⟨⟨q, List.mem_cons_of_mem p hq, hqh⟩, ?_⟩
      simp only [deleteScan, hsome]
      congr 1
      rw [List.reverse_cons, List.eraseP_append_left hqh _ (by simpa using hq)]
      simp

/-- C9: the hit-test query scans oldest-to-newest and returns the first
particle within `radius + 2` (or `none`); the delete operation scans
newest-to-oldest — it removes exactly the first match of the reversed order —
and is a no-op when nothing matches. -/
theorem scan_order_duality (x y : ℝ) (ps : List Particle) :
    getParticleAt x y ps = ps.find? (hitTest x y)
    ∧ deleteParticleAt x y ps = (List.eraseP (hitTest x y) ps.reverse).reverse
    ∧ ((∀ p ∈ ps, ¬ hitTest x y p = true) → deleteParticleAt x y ps = ps) := by
  refine ⟨getParticleAt_eq_find x y ps, ?_, ?_⟩
  · rcases deleteScan_spec x y ps with ⟨hnone, hall⟩ | ⟨_, hsome⟩
    · rw [deleteParticleAt, hnone]
      simp only [Option.getD_none]
      rw [List.eraseP_of_forall_not (fun a ha => hall a (by simpa using ha)),
        List.reverse_reverse]
    · rw [deleteParticleAt, hsome]
      rfl
  · intro hall
    rcases deleteScan_spec x y ps with ⟨hnone, _⟩ | ⟨⟨q, hq, hqh⟩, _⟩
    · rw [deleteParticleAt, hnone]
      rfl
    · exact absurd hqh (hall q hq)

/-- Witness for C9 at a concrete one-particle list. -/
theorem scan_order_duality_witness :
    getParticleAt 0 0 [mkParticle 0 0 1] = List.find? (hitTest 0 0) [mkParticle 0 0 1]
    ∧ deleteParticleAt 0 0 [mkParticle 0 0 1]
        = (List.eraseP (hitTest 0 0) (List.reverse [mkParticle 0 0 1])).reverse
    ∧ ((∀ p ∈ [mkParticle 0 0 1], ¬ hitTest 0 0 p = true) →
        deleteParticleAt 0 0 [mkParticle 0 0 1] = [mkParticle 0 0 1]) :=
  scan_order_duality 0 0 [mkParticle 0 0 1]

/-- A member of `dropLast` of a cons is the head or a member of the tail's
`dropLast`. -/
theorem mem_dropLast_cons {α : Type} (a q : α) (l : List α)
    (h : q ∈ (a :: l).dropLast) : q = a ∨ q ∈ l.dropLast := by
  cases l with
  | nil => simp at h
  | cons b tl =>
    rw [List.dropLast_cons₂] at h
    rcases List.mem_cons.mp h with h1 | h2
    · exact Or.inl h1
    · exact Or.inr h2

/-- When the sink scan reports no hit, no negative charge is within its
absorption radius of the point. -/
theorem hitsSink_eq_false (x y : ℝ) (ps : List Particle)
    (h : hitsSink x y ps = false) :
    ∀ p ∈ ps, p.charge < 0 → ¬ dist x y p.pos.x p.pos.y < p.radius + 4 := by
  induction ps with
  | nil => simp
  | cons p tl ih =>
    intro q hq hneg
    rw [hitsSink] at h
    by_cases hc : p.charge < 0 ∧ dist x y p.pos.x p.pos.y < p.radius + 4
    · rw [if_pos hc] at h
      cases h
    · rw [if_neg hc] at h
      rcases List.mem_cons.mp hq with h1 | h2
      · intro hd
        exact hc ⟨h1 ▸ hneg, h1 ▸ hd⟩
      · exact ih h q h2 hneg

/-- Every point of the traced streamline except possibly the last lies inside
the canvas and outside every negative charge's sink radius. -/
theorem traceAux_interior (cfg : Config) (ps : List Particle) :
    ∀ (fuel : Nat) (x y : ℝ) (q : ℝ × ℝ), q ∈ (traceAux cfg ps fuel x y).dropLast →
      (0 ≤ q.1 ∧ q.1 ≤ cfg.canvasWidth ∧ 0 ≤ q.2 ∧ q.2 ≤ cfg.canvasHeight)
      ∧ ∀ p ∈ ps, p.charge < 0 → ¬ dist q.1 q.2 p.pos.x p.pos.y < p.radius + 4 := by
  intro fuel
  induction fuel with
  | zero =>
    intro x y q hq
    simp [traceAux] at hq
  | succ n ih =>
    intro x y q hq
    simp only [traceAux] at hq
    split at hq
    · simp at hq
    · split at hq
      · simp at hq
      · split at hq
        · simp at hq
        · rename_i hout hsink
          rcases mem_dropLast_cons _ _ _ hq with h1 | h2
          · subst h1
            push_neg at hout
            have hsink2 : hitsSink (x + (normalize (computeElectricFieldAtPoint cfg ps x y)).x
                  * cfg.streamlineStep)
                (y + (normalize (computeElectricFieldAtPoint cfg ps x y)).y
                  * cfg.streamlineStep) ps = false := by
              revert hsink
              cases hitsSink (x + (normalize (computeElectricFieldAtPoint cfg ps x y)).x
                  * cfg.streamlineStep)
                (y + (normalize (computeElectricFieldAtPoint cfg ps x y)).y
                  * cfg.streamlineStep) ps <;> simp
            exact ⟨⟨hout.1, hout.2.1, hout.2.2.1, hout.2.2.2⟩,
              hitsSink_eq_false _ _ _ hsink2⟩
          · exact ih _ _ q h2

/-- C10: in every sequence the Streamline Tracer returns, every point except
possibly the last lies within the canvas bounds and outside every negative
charge's sink radius (`radius + 4`); only the final point may violate either,
because each advanced point is appended before the termination checks run. -/
theorem streamline_interior_points (cfg : Config) (ps : List Particle) (sx sy : ℝ)
    (q : ℝ × ℝ) (hq : q ∈ (traceStreamline cfg ps sx sy).dropLast) :
    (0 ≤ q.1 ∧ q.1 ≤ cfg.canvasWidth ∧ 0 ≤ q.2 ∧ q.2 ≤ cfg.canvasHeight)
    ∧ ∀ p ∈ ps, p.charge < 0 → ¬ dist q.1 q.2 p.pos.x p.pos.y < p.radius + 4 :=
  traceAux_interior cfg ps cfg.maxStreamlineLen sx sy q hq

/-- One continuing iteration of the streamline loop, phrased for concrete
evaluation. -/
theorem traceAux_step (cfg : Config) (ps : List Particle) (n : Nat) (x y x2 y2 : ℝ)
    (E : Vec) (hE : computeElectricFieldAtPoint cfg ps x y = E)
    (h1 : ¬ mag E < 0.01)
    (hx2 : x + (normalize E).x * cfg.streamlineStep = x2)
    (hy2 : y + (normalize E).y * cfg.streamlineStep = y2)
    (h2 : ¬ (x2 < 0 ∨ x2 > cfg.canvasWidth ∨ y2 < 0 ∨ y2 > cfg.canvasHeight))
    (h3 : hitsSink x2 y2 ps = false) :
    traceAux cfg ps (n + 1) x y = (x2, y2) :: traceAux cfg ps n x2 y2 := by
  have h3' : ¬ hitsSink x2 y2 ps = true := by simp [h3]
  simp only [traceAux, hE, hx2, hy2]
  rw [if_neg h1, if_neg h2, if_neg h3']

/-- A canvas-exit iteration of the streamline loop, phrased for concrete
evaluation. -/
theorem traceAux_step_exit (cfg : Config) (ps : List Particle) (n : Nat) (x y x2 y2 : ℝ)
    (E : Vec) (hE : computeElectricFieldAtPoint cfg ps x y = E)
    (h1 : ¬ mag E < 0.01)
    (hx2 : x + (normalize E).x * cfg.streamlineStep = x2)
    (hy2 : y + (normalize E).y * cfg.streamlineStep = y2)
    (h2 : x2 < 0 ∨ x2 > cfg.canvasWidth ∨ y2 < 0 ∨ y2 > cfg.canvasHeight) :
    traceAux cfg ps (n + 1) x y = [(x2, y2)] := by
  simp only [traceAux, hE, hx2, hy2]
  rw [if_neg h1, if_pos h2]

/-- Concrete two-point streamline on a 12 × 10 canvas: a positive charge at
`(0,5)`, seed `(8,5)`; the second traced point exits the canvas. -/
theorem traceW_eval :
    traceStreamline { defaultConfig with canvasWidth := 12, canvasHeight := 10 }
      [mkParticle 0 5 1] 8 5 = [(51 / 5, 5), (62 / 5, 5)] := by
  have h864 : Real.sqrt 64 = 8 := sqrt_eq_of_sq 64 8 (by norm_num) (by norm_num)
  have hs2 : Real.sqrt (2601 / 25) = 51 / 5 :=
    sqrt_eq_of_sq (2601 / 25) (51 / 5) (by norm_num) (by norm_num)
  have hE1 : computeElectricFieldAtPoint
      { defaultConfig with canvasWidth := 12, canvasHeight := 10 }
      [mkParticle 0 5 1] 8 5 = ⟨(25 / 2 : ℝ), 0⟩ := by
    norm_num [computeElectricFieldAtPoint, fieldStep, mkParticle, defaultConfig, h864]
  have hE2 : computeElectricFieldAtPoint
      { defaultConfig with canvasWidth := 12, canvasHeight := 10 }
      [mkParticle 0 5 1] (51 / 5) 5 = ⟨20000 / 2601, 0⟩ := by
    norm_num [computeElectricFieldAtPoint, fieldStep, mkParticle, defaultConfig, hs2]
  have hm1 : mag ⟨(25 / 2 : ℝ), 0⟩ = (25 / 2 : ℝ) := by
    rw [mag]; exact sqrt_eq_of_sq _ (25 / 2 : ℝ) (by norm_num) (by norm_num)
  have hm2 : mag ⟨20000 / 2601, 0⟩ = 20000 / 2601 := by
    rw [mag]; exact sqrt_eq_of_sq _ (20000 / 2601) (by norm_num) (by norm_num)
  have hn1 : normalize ⟨(25 / 2 : ℝ), 0⟩ = ⟨1, 0⟩ := by
    norm_num [normalize, hm1, vdiv]
  have hn2 : normalize ⟨20000 / 2601, 0⟩ = ⟨1, 0⟩ := by
    norm_num [normalize, hm2, vdiv]
  have hsink1 : hitsSink (51 / 5) 5 [mkParticle 0 5 1] = false := by
    norm_num [hitsSink, mkParticle]
  rw [traceStreamline,
    show ({ defaultConfig with canvasWidth := 12, canvasHeight := 10 } :
      Config).maxStreamlineLen = 599 + 1 from rfl]
  rw [traceAux_step _ _ 599 8 5 (51 / 5) 5 ⟨(25 / 2 : ℝ), 0⟩ hE1
    (by rw [hm1]; norm_num)
    (by rw [hn1]; norm_num [defaultConfig])
    (by rw [hn1]; norm_num [defaultConfig])
    (by norm_num [defaultConfig]) hsink1]
  rw [show (599 : ℕ) = 598 + 1 from rfl]
  rw [traceAux_step_exit _ _ 598 (51 / 5) 5 (62 / 5) 5 ⟨20000 / 2601, 0⟩ hE2
    (by rw [hm2]; norm_num)
    (by rw [hn2]; norm_num [defaultConfig])
    (by rw [hn2]; norm_num [defaultConfig])
    (by norm_num [defaultConfig])]

/-- The first traced point of the concrete scenario is an interior point of
the returned sequence. -/
theorem traceW_mem :
    ((51 / 5 : ℝ), (5 : ℝ)) ∈ (traceStreamline
      { defaultConfig with canvasWidth := 12, canvasHeight := 10 }
      [mkParticle 0 5 1] 8 5).dropLast := by
  rw [traceW_eval]
  simp

/-- Witness for C10 at the concrete two-point streamline. -/
theorem streamline_interior_points_witness :
    (((51 / 5 : ℝ), (5 : ℝ)) ∈ (traceStreamline
        { defaultConfig with canvasWidth := 12, canvasHeight := 10 }
        [mkParticle 0 5 1] 8 5).dropLast)
    ∧ ((0 ≤ (51 / 5 : ℝ)
        ∧ (51 / 5 : ℝ) ≤ ({ defaultConfig with canvasWidth := 12, canvasHeight := 10 } :
            Config).canvasWidth
        ∧ 0 ≤ (5 : ℝ)
        ∧ (5 : ℝ) ≤ ({ defaultConfig with canvasWidth := 12, canvasHeight := 10 } :
            Config).canvasHeight)
      ∧ ∀ p ∈ [mkParticle 0 5 1], p.charge < 0 →
          ¬ dist (51 / 5) 5 p.pos.x p.pos.y < p.radius + 4) :=
  ⟨traceW_mem,
   streamline_interior_points { defaultConfig with canvasWidth := 12, canvasHeight := 10 }
     [mkParticle 0 5 1] 8 5 ((51 / 5 : ℝ), (5 : ℝ)) traceW_mem⟩

end

end Sketch
